import Mathlib

set_option maxHeartbeats 1000000

/-! Shallow embedding of the repository: `src/utilities/utils.py` (EWMA helper,
recursive dict sorting, idempotency keys), `src/utilities/validators.py`
(upload validation), and — modelled from the spec, since their code is not in
the repository files — the backend-registry selection facade and the
per-instance health state machine. Python floats are modelled as exact
rationals; `round(x, 2)` is modelled as round-half-to-even at two decimal
places. -/

/-- Round-half-to-even of a rational to an integer: the tie-breaking rule of
Python `round`. -/
def roundHalfEven (q : ℚ) : ℤ :=
  if q - ⌊q⌋ < 1 / 2 then ⌊q⌋
  else if 1 / 2 < q - ⌊q⌋ then ⌊q⌋ + 1
  else if ⌊q⌋ % 2 = 0 then ⌊q⌋ else ⌊q⌋ + 1

/-- Python `round(x, 2)`: round to two decimal places. -/
def round2 (q : ℚ) : ℚ := (roundHalfEven (q * 100) : ℚ) / 100

/-- Embedding of `calculate_latency_ewma` (src/utilities/utils.py, lines
55-65). The Python guard `if not old_latency:` is taken when `old_latency`
is `None` and also when it equals `0.0` (both are falsy), hence the two
branches returning `round(current_latency, 2)`. The source's default
`alpha = 0.2` is written `1 / 5` at call sites. -/
def calculate_latency_ewma (old_latency : Option ℚ) (current_latency : ℚ) (alpha : ℚ) : ℚ :=
  match old_latency with
  | none => round2 current_latency
  | some old =>
      if old = 0 then round2 current_latency
      else round2 (alpha * current_latency + (1 - alpha) * old)

lemma roundHalfEven_eq_of_lt (q : ℚ) (z : ℤ) (h1 : (z : ℚ) ≤ q)
    (h2 : q < (z : ℚ) + 1 / 2) : roundHalfEven q = z := by
  have hf : ⌊q⌋ = z := Int.floor_eq_iff.mpr ⟨h1, by linarith⟩
  unfold roundHalfEven
  rw [hf, if_pos (by linarith)]

lemma roundHalfEven_eq_of_gt (q : ℚ) (z : ℤ) (h1 : (z : ℚ) + 1 / 2 < q)
    (h2 : q < (z : ℚ) + 1) : roundHalfEven q = z + 1 := by
  have hf : ⌊q⌋ = z := Int.floor_eq_iff.mpr ⟨by linarith, by linarith⟩
  unfold roundHalfEven
  rw [hf, if_neg (by linarith), if_pos (by linarith)]

lemma round2_eq (q : ℚ) (z : ℤ) (h1 : (z : ℚ) ≤ q * 100)
    (h2 : q * 100 < (z : ℚ) + 1 / 2) : round2 q = (z : ℚ) / 100 := by
  unfold round2
  rw [roundHalfEven_eq_of_lt (q * 100) z h1 h2]

lemma roundHalfEven_ge_floor (q : ℚ) : ⌊q⌋ ≤ roundHalfEven q := by
  unfold roundHalfEven
  split_ifs <;> omega

lemma roundHalfEven_le_floor_add_one (q : ℚ) : roundHalfEven q ≤ ⌊q⌋ + 1 := by
  unfold roundHalfEven
  split_ifs <;> omega

lemma roundHalfEven_mono {q r : ℚ} (h : q ≤ r) : roundHalfEven q ≤ roundHalfEven r := by
  rcases lt_or_le ⌊q⌋ ⌊r⌋ with hf | hf
  · have h1 := roundHalfEven_le_floor_add_one q
    have h2 := roundHalfEven_ge_floor r
    omega
  · have hf' : ⌊q⌋ = ⌊r⌋ := le_antisymm (Int.floor_le_floor h) hf
    have hd : q - (⌊q⌋ : ℚ) ≤ r - (⌊r⌋ : ℚ) := by
      rw [hf']
      linarith
    unfold roundHalfEven
    rw [hf']
    rw [hf'] at hd
    split_ifs <;> first | omega | linarith

lemma round2_mono {q r : ℚ} (h : q ≤ r) : round2 q ≤ round2 r := by
  unfold round2
  have h' : roundHalfEven (q * 100) ≤ roundHalfEven (r * 100) :=
    roundHalfEven_mono (by linarith)
  have h'' : ((roundHalfEven (q * 100) : ℚ)) ≤ ((roundHalfEven (r * 100) : ℚ)) := by
    exact_mod_cast h'
  linarith

/-- C1 counterexample: the claim quantifies over every present (non-None) old
value, but at `old = 0.0` the code takes the falsy branch and returns the
rounded sample, not the EWMA recurrence: with `current = 100`, `alpha = 1/5`
the recurrence gives `20` while the function returns `100`. -/
theorem calculate_latency_ewma_zero_old_counterexample :
    calculate_latency_ewma (some 0) 100 (1 / 5) ≠
      round2 (1 / 5 * 100 + (1 - 1 / 5) * 0) := by
  have hL : calculate_latency_ewma (some 0) 100 (1 / 5) = round2 100 := by
    simp [calculate_latency_ewma]
  rw [hL, round2_eq 100 10000 (by norm_num) (by norm_num),
    round2_eq (1 / 5 * 100 + (1 - 1 / 5) * 0) 2000 (by norm_num) (by norm_num)]
  norm_num

/-- C1 (amended): for every present and nonzero old latency value, every
sample and every alpha, `calculate_latency_ewma` returns
`alpha*current + (1-alpha)*old` rounded to 2 decimal places. -/
theorem calculate_latency_ewma_present_nonzero_formula :
    ∀ old current alpha : ℚ, old ≠ 0 →
      calculate_latency_ewma (some old) current alpha =
        round2 (alpha * current + (1 - alpha) * old) := by
  intro old current alpha h
  show (if old = 0 then round2 current
    else round2 (alpha * current + (1 - alpha) * old)) = _
  rw [if_neg h]

theorem calculate_latency_ewma_present_nonzero_formula_witness :
    calculate_latency_ewma (some 100) 200 (1 / 5) =
      round2 (1 / 5 * 200 + (1 - 1 / 5) * 100) :=
  calculate_latency_ewma_present_nonzero_formula 100 200 (1 / 5) (by norm_num)

/-- C2: on an absent (None) old estimate the function returns the sample
rounded to 2 decimal places, for every sample and alpha. -/
theorem calculate_latency_ewma_absent_returns_rounded_sample :
    ∀ current alpha : ℚ, calculate_latency_ewma none current alpha = round2 current :=
  fun _ _ => rfl

/-- C3: a present old estimate equal to 0.0 is handled exactly like an absent
one — the function returns the sample rounded to 2 decimal places, not the
EWMA recurrence. -/
theorem calculate_latency_ewma_zero_estimate_like_absent :
    ∀ current alpha : ℚ, calculate_latency_ewma (some 0) current alpha = round2 current := by
  intro current alpha
  simp [calculate_latency_ewma]

/-- C4: the three EWMA reference evaluations of the spec hold exactly (the
source's default `alpha = 0.2` written `1/5`). -/
theorem calculate_latency_ewma_reference_evaluations :
    calculate_latency_ewma none 100 (1 / 5) = 100 ∧
    calculate_latency_ewma (some 100) 200 (1 / 5) = 120 ∧
    calculate_latency_ewma (some 120) 100 (1 / 5) = 116 := by
  refine ⟨?_, ?_, ?_⟩
  · show round2 100 = 100
    rw [round2_eq 100 10000 (by norm_num) (by norm_num)]
    norm_num
  · show (if (100 : ℚ) = 0 then round2 200
      else round2 (1 / 5 * 200 + (1 - 1 / 5) * 100)) = 120
    rw [if_neg (by norm_num), round2_eq _ 12000 (by norm_num) (by norm_num)]
    norm_num
  · show (if (120 : ℚ) = 0 then round2 100
      else round2 (1 / 5 * 100 + (1 - 1 / 5) * 120)) = 116
    rw [if_neg (by norm_num), round2_eq _ 11600 (by norm_num) (by norm_num)]
    norm_num

/-- C5 counterexample: the preconditions of the claim hold (`old = 1/250 ≥ 0`,
`current = 1/500 ≥ 0`, `alpha = 1/2 ∈ [0,1]`), yet the returned value
`round(0.003, 2) = 0` falls strictly below `min(old, current) = 1/500`:
rounding can push the estimate outside the `[min, max]` interval. -/
theorem calculate_latency_ewma_minmax_counterexample :
    (0 ≤ (1 / 250 : ℚ) ∧ 0 ≤ (1 / 500 : ℚ) ∧ 0 ≤ (1 / 2 : ℚ) ∧ (1 / 2 : ℚ) ≤ 1) ∧
    calculate_latency_ewma (some (1 / 250)) (1 / 500) (1 / 2) <
      min (1 / 250 : ℚ) (1 / 500) := by
  refine ⟨by norm_num, ?_⟩
  have hv : calculate_latency_ewma (some (1 / 250)) (1 / 500) (1 / 2) = (0 : ℚ) / 100 := by
    have hne : (1 / 250 : ℚ) ≠ 0 := by norm_num
    show (if (1 / 250 : ℚ) = 0 then round2 (1 / 500)
      else round2 (1 / 2 * (1 / 500) + (1 - 1 / 2) * (1 / 250))) = (0 : ℚ) / 100
    rw [if_neg hne]
    exact round2_eq _ 0 (by norm_num) (by norm_num)
  rw [hv, min_eq_right (by norm_num : (1 / 500 : ℚ) ≤ 1 / 250)]
  norm_num

/-- C5 (amended): for a present old estimate and `0 ≤ alpha ≤ 1` with
nonnegative inputs, the returned value lies between `min(old, current)` and
`max(old, current)` rounded to 2 decimal places — the unrounded EWMA stays in
the interval and the final rounding can move it only to the rounded
endpoints. -/
theorem calculate_latency_ewma_bounds_after_rounding :
    ∀ old current alpha : ℚ, 0 ≤ old → 0 ≤ current → 0 ≤ alpha → alpha ≤ 1 →
      round2 (min old current) ≤ calculate_latency_ewma (some old) current alpha ∧
      calculate_latency_ewma (some old) current alpha ≤ round2 (max old current) := by
  intro old current alpha _ _ h3 h4
  show round2 (min old current) ≤ (if old = 0 then round2 current
      else round2 (alpha * current + (1 - alpha) * old)) ∧
    (if old = 0 then round2 current
      else round2 (alpha * current + (1 - alpha) * old)) ≤ round2 (max old current)
  split_ifs with h0
  · exact ⟨round2_mono (min_le_right _ _), round2_mono (le_max_right _ _)⟩
  · constructor
    · refine round2_mono ?_
      nlinarith [mul_nonneg h3 (sub_nonneg.mpr (min_le_right old current)),
        mul_nonneg (by linarith : (0 : ℚ) ≤ 1 - alpha)
          (sub_nonneg.mpr (min_le_left old current))]
    · refine round2_mono ?_
      nlinarith [mul_nonneg h3 (sub_nonneg.mpr (le_max_right old current)),
        mul_nonneg (by linarith : (0 : ℚ) ≤ 1 - alpha)
          (sub_nonneg.mpr (le_max_left old current))]

theorem calculate_latency_ewma_bounds_after_rounding_witness :
    round2 (min (100 : ℚ) 200) ≤ calculate_latency_ewma (some 100) 200 (1 / 5) ∧
    calculate_latency_ewma (some 100) 200 (1 / 5) ≤ round2 (max (100 : ℚ) 200) :=
  calculate_latency_ewma_bounds_after_rounding 100 200 (1 / 5)
    (by norm_num) (by norm_num) (by norm_num) (by norm_num)

/-- C6: the embedded `calculate_latency_ewma` is a pure total function —
equal arguments give equal results, and a result exists (the function
returns normally) for every input. -/
theorem calculate_latency_ewma_deterministic_total :
    ∀ (o o' : Option ℚ) (c a c' a' : ℚ), o = o' → c = c' → a = a' →
      calculate_latency_ewma o c a = calculate_latency_ewma o' c' a' ∧
      ∃ y : ℚ, calculate_latency_ewma o c a = y := by
  intro o o' c a c' a' h1 h2 h3
  subst h1
  subst h2
  subst h3
  exact ⟨rfl, ⟨calculate_latency_ewma o c a, rfl⟩⟩

theorem calculate_latency_ewma_deterministic_total_witness :
    calculate_latency_ewma (some 1) 2 (1 / 2) = calculate_latency_ewma (some 1) 2 (1 / 2) ∧
    ∃ y : ℚ, calculate_latency_ewma (some 1) 2 (1 / 2) = y :=
  calculate_latency_ewma_deterministic_total (some 1) (some 1) 2 (1 / 2) 2 (1 / 2) rfl rfl rfl

/-! Embedding of `src/utilities/validators.py`. An uploaded file is modelled
by its optional filename and its content bytes; `await file.read()` yields
the whole content, whose length is the size the code checks. -/

/-- Python `MAX_SIZE_BYTES = 10 * 1024 * 1024` (10MB). -/
def MAX_SIZE_BYTES : Nat := 10 * 1024 * 1024

structure UploadFile where
  filename : Option String
  content : List Nat

structure DocumentValidationResult where
  valid : Bool
  errors : List String

/-- `self.allowed_extensions = {".pdf", ".txt", ".json"}`; the Python set is
modelled as a list, membership being all the code uses. -/
def allowed_extensions : List String := [".pdf", ".txt", ".json"]

/-- Index of the last `'.'` in a character list (Python `str.rfind('.')`,
returning `none` instead of `-1`). -/
def lastDotIdx : List Char → Option Nat
  | [] => none
  | c :: rest =>
    match lastDotIdx rest with
    | some i => some (i + 1)
    | none => if c = '.' then some 0 else none

/-- `pathlib.PurePath(...).name`: the final path component; empty and
single-dot components are dropped as path normalization does. -/
def path_name (s : String) : String :=
  ((s.splitOn "/").filter (fun c => c != "" && c != ".")).getLastD ""

/-- `pathlib.PurePath(...).suffix`: the extension of the final component —
the substring from its last dot, empty unless that dot is at position
`0 < i < len(name) - 1`. -/
def path_suffix (s : String) : String :=
  let name := (path_name s).toList
  match lastDotIdx name with
  | none => ""
  | some i => if 0 < i ∧ i < name.length - 1 then String.mk (name.drop i) else ""

/-- The guard `not file.filename or file.filename.strip() == ""`: true for a
missing filename, and for an empty or whitespace-only one (`"".strip()` is
also empty, so trimming covers the falsy empty string). -/
def no_file_selected : Option String → Bool
  | none => true
  | some s => s.trim == ""

/-- The extension error text; Python interpolates the extension and joins the
allowed-extensions set (the quote characters and the set's iteration order
are simplified here; no claim depends on this text). -/
def ext_error_message (file_ext : String) : String :=
  "File extension " ++ file_ext ++ " not allowed. Use: .pdf, .txt, .json"

/-- The size error text (Python adds thousands separators to the numbers). -/
def size_error_message (file_size max_size : Nat) : String :=
  "File too large (" ++ toString file_size ++ " bytes). Maximum: " ++
    toString max_size ++ " bytes"

/-- Embedding of `DocumentValidator.validate_file`, with `self.max_size`
(stored by `__init__`, default `MAX_SIZE_BYTES`) passed explicitly. A blank
filename short-circuits; otherwise the extension check and the size check
each append their error in source order and force `valid = False`. -/
def validate_file (max_size : Nat) (file : UploadFile) : DocumentValidationResult :=
  if no_file_selected file.filename then
    { valid := false, errors := ["No file selected"] }
  else
    let file_ext := (path_suffix (file.filename.getD "")).toLower
    { valid := decide (file_ext ∈ allowed_extensions) && decide (file.content.length ≤ max_size),
      errors :=
        (if file_ext ∈ allowed_extensions then [] else [ext_error_message file_ext]) ++
        (if file.content.length ≤ max_size then []
          else [size_error_message file.content.length max_size]) }

/-- C10: the validation result is valid iff its error list is empty; it is
invalid exactly when the filename is missing or blank, or the lowercased
suffix is not an allowed extension, or the content exceeds `max_size`; a
blank filename short-circuits with the single error "No file selected", and
otherwise the extension and size violations accumulate as separate errors. -/
theorem validate_file_spec :
    ∀ (max_size : Nat) (file : UploadFile),
      ((validate_file max_size file).valid = true ↔
        (validate_file max_size file).errors = []) ∧
      ((validate_file max_size file).valid = false ↔
        (no_file_selected file.filename = true ∨
          (path_suffix (file.filename.getD "")).toLower ∉ allowed_extensions ∨
          max_size < file.content.length)) ∧
      ((validate_file max_size file).errors =
        if no_file_selected file.filename then ["No file selected"]
        else
          (if (path_suffix (file.filename.getD "")).toLower ∈ allowed_extensions then []
            else [ext_error_message ((path_suffix (file.filename.getD "")).toLower)]) ++
          (if file.content.length ≤ max_size then []
            else [size_error_message file.content.length max_size])) := by
  intro max_size file
  by_cases h : no_file_selected file.filename = true
  · simp [validate_file, h]
  · by_cases hext : (path_suffix (file.filename.getD "")).toLower ∈ allowed_extensions <;>
      by_cases hsize : file.content.length ≤ max_size <;>
      simp [validate_file, h, hext, hsize, Nat.lt_iff_add_one_le, Nat.not_le] <;>
      omega

/-! The backend registry core (ServiceRegistry, HealthProber, BackendRegistry)
is consumed by `src/api/core/lifespan.py` but its own code is not among the
repository files; the selection facade and the per-instance health state
machine below are modelled from the spec (sections 4.3 and 4.4). -/

/-- Modelled from the spec: the instance status enum of section 3 (UNKNOWN,
HEALTHY, UNHEALTHY, DRAINING). -/
inductive Status where
  | UNKNOWN
  | HEALTHY
  | UNHEALTHY
  | DRAINING
deriving DecidableEq, Repr

/-- Modelled from the spec: a BackendInstance (section 3) with the fields
selection reads; `latency_ewma` is `none` until a first successful probe. -/
structure BackendInstance where
  id : String
  address : String
  service_name : String
  weight : Nat
  status : Status
  latency_ewma : Option ℚ

/-- Modelled from the spec: the selection strategies of section 4.4. -/
inductive Strategy where
  | LOWEST_LATENCY
  | ROUND_ROBIN

/-- Modelled from the spec: the `NoHealthyBackendError` of section 7. -/
structure NoHealthyBackendError where
  message : String

/-- Modelled from the spec: candidates with `latency_ewma = None` sort last
(section 4.4), so the key is a flag-latency pair compared lexicographically. -/
def latencyKey : Option ℚ → Nat × ℚ
  | none => (1, 0)
  | some l => (0, l)

/-- Modelled from the spec: strict preference between two candidates — smaller
latency key first, ties by weight descending; on full ties the earlier
(insertion-order) candidate is kept by the fold below. -/
def strictlyPreferred (x b : BackendInstance) : Bool :=
  if (latencyKey x.latency_ewma).1 ≠ (latencyKey b.latency_ewma).1 then
    decide ((latencyKey x.latency_ewma).1 < (latencyKey b.latency_ewma).1)
  else if (latencyKey x.latency_ewma).2 ≠ (latencyKey b.latency_ewma).2 then
    decide ((latencyKey x.latency_ewma).2 < (latencyKey b.latency_ewma).2)
  else
    decide (b.weight < x.weight)

/-- Modelled from the spec: the LOWEST_LATENCY pick over a nonempty candidate
list, keeping the earlier candidate unless a later one is strictly better. -/
def pickBest (first : BackendInstance) (rest : List BackendInstance) : BackendInstance :=
  rest.foldl (fun b x => if strictlyPreferred x b then x else b) first

/-- Modelled from the spec: `BackendRegistry.select` (section 4.4) over the
registered instances of one service — filter to HEALTHY, fail with
`NoHealthyBackendError` when no candidate remains, otherwise pick by the
strategy (`cursor` is the per-service round-robin cursor). -/
def selectInstance (instances : List BackendInstance) (strategy : Strategy)
    (cursor : Nat) : Except NoHealthyBackendError BackendInstance :=
  let candidates := instances.filter (fun i => i.status == Status.HEALTHY)
  match candidates with
  | [] => Except.error { message := "No healthy backend available" }
  | c :: cs =>
    match strategy with
    | Strategy.LOWEST_LATENCY => Except.ok (pickBest c cs)
    | Strategy.ROUND_ROBIN => Except.ok ((c :: cs).getD (cursor % (c :: cs).length) c)

lemma foldl_pref_mem (l : List BackendInstance) :
    ∀ acc : BackendInstance,
      l.foldl (fun b x => if strictlyPreferred x b then x else b) acc = acc ∨
      l.foldl (fun b x => if strictlyPreferred x b then x else b) acc ∈ l := by
  induction l with
  | nil =>
    intro acc
    left
    rfl
  | cons y ys ih =>
    intro acc
    simp only [List.foldl_cons]
    by_cases hb : strictlyPreferred y acc = true
    · rw [if_pos hb]
      rcases ih y with h1 | h1
      · right
        rw [h1]
        exact List.mem_cons_self _ _
      · right
        exact List.mem_cons_of_mem _ h1
    · rw [if_neg hb]
      rcases ih acc with h1 | h1
      · left
        exact h1
      · right
        exact List.mem_cons_of_mem _ h1

lemma pickBest_mem (c : BackendInstance) (cs : List BackendInstance) :
    pickBest c cs ∈ c :: cs := by
  rcases foldl_pref_mem cs c with h1 | h1
  · rw [pickBest, h1]
    exact List.mem_cons_self _ _
  · exact List.mem_cons_of_mem _ (by rw [pickBest]; exact h1)

lemma getD_mem (c : BackendInstance) (cs : List BackendInstance) (k : Nat) :
    (c :: cs).getD (k % (c :: cs).length) c ∈ c :: cs := by
  have hlen : k % (c :: cs).length < (c :: cs).length :=
    Nat.mod_lt _ (by simp)
  rw [List.getD_eq_getElem?_getD, List.getElem?_eq_getElem hlen]
  simp only [Option.getD_some]
  exact List.getElem_mem _

/-- C7: for every registered instance list, strategy and round-robin cursor,
`select` either returns a HEALTHY instance of the list or fails with
`NoHealthyBackendError`, and it fails exactly when the list has no HEALTHY
instance (DRAINING, UNHEALTHY and UNKNOWN are never returned). -/
theorem selectInstance_healthy_or_error :
    ∀ (instances : List BackendInstance) (strategy : Strategy) (cursor : Nat),
      ((∃ i, selectInstance instances strategy cursor = Except.ok i ∧
          i.status = Status.HEALTHY ∧ i ∈ instances) ∨
        (∃ e, selectInstance instances strategy cursor = Except.error e)) ∧
      ((∃ e, selectInstance instances strategy cursor = Except.error e) ↔
        ∀ i ∈ instances, i.status ≠ Status.HEALTHY) := by
  intro l strat cur
  unfold selectInstance
  cases hc : l.filter (fun i => i.status == Status.HEALTHY) with
  | nil =>
    constructor
    · right
      exact ⟨_, rfl⟩
    · simp only [true_iff, iff_true]
      constructor
      · intro _ i hi
        intro hstat
        have : i ∈ l.filter (fun i => i.status == Status.HEALTHY) := by
          rw [List.mem_filter]
          exact ⟨hi, by simp [hstat]⟩
        rw [hc] at this
        exact absurd this (List.not_mem_nil _)
      · intro _
        exact ⟨_, rfl⟩
  | cons c cs =>
    have hmem : ∀ i, i ∈ c :: cs → i.status = Status.HEALTHY ∧ i ∈ l := by
      intro i hi
      rw [← hc] at hi
      rw [List.mem_filter] at hi
      refine ⟨by simpa using hi.2, hi.1⟩
    have hc_healthy : c.status = Status.HEALTHY ∧ c ∈ l :=
      hmem c (List.mem_cons_self _ _)
    cases strat with
    | LOWEST_LATENCY =>
      constructor
      · left
        refine ⟨pickBest c cs, rfl, ?_, ?_⟩
        · exact (hmem _ (pickBest_mem c cs)).1
        · exact (hmem _ (pickBest_mem c cs)).2
      · constructor
        · rintro ⟨e, he⟩
          exact absurd he (by simp)
        · intro hall
          exact absurd hc_healthy.1 (hall c hc_healthy.2)
    | ROUND_ROBIN =>
      constructor
      · left
        refine ⟨(c :: cs).getD (cur % (c :: cs).length) c, rfl, ?_, ?_⟩
        · exact (hmem _ (getD_mem c cs cur)).1
        · exact (hmem _ (getD_mem c cs cur)).2
      · constructor
        · rintro ⟨e, he⟩
          exact absurd he (by simp)
        · intro hall
          exact absurd hc_healthy.1 (hall c hc_healthy.2)

/-- Modelled from the spec: `SUCCESS_THRESHOLD` (default 2, section 4.3). -/
def SUCCESS_THRESHOLD : Nat := 2

/-- Modelled from the spec: `FAILURE_THRESHOLD` (default 3, section 4.3). -/
def FAILURE_THRESHOLD : Nat := 3

/-- Modelled from the spec: the per-instance health fields the state machine
updates (sections 3 and 4.3). -/
structure HealthState where
  status : Status
  consecutive_successes : Nat
  consecutive_failures : Nat
  latency_ewma : Option ℚ

/-- Modelled from the spec (section 4.3, on probe success): reset the failure
streak, extend the success streak, fold the measured sample into the EWMA
(via `calculate_latency_ewma` with the default alpha), and transition
UNHEALTHY/UNKNOWN to HEALTHY once the streak reaches `SUCCESS_THRESHOLD`. -/
def probe_success (st : HealthState) (sample : ℚ) : HealthState :=
  { status :=
      if (st.status = Status.UNHEALTHY ∨ st.status = Status.UNKNOWN) ∧
          SUCCESS_THRESHOLD ≤ st.consecutive_successes + 1
      then Status.HEALTHY else st.status,
    consecutive_successes := st.consecutive_successes + 1,
    consecutive_failures := 0,
    latency_ewma := some (calculate_latency_ewma st.latency_ewma sample (1 / 5)) }

/-- Modelled from the spec (section 4.3, on probe failure): reset the success
streak, extend the failure streak, leave the EWMA unchanged, and transition
HEALTHY/UNKNOWN to UNHEALTHY once the streak reaches `FAILURE_THRESHOLD`. -/
def probe_failure (st : HealthState) : HealthState :=
  { status :=
      if (st.status = Status.HEALTHY ∨ st.status = Status.UNKNOWN) ∧
          FAILURE_THRESHOLD ≤ st.consecutive_failures + 1
      then Status.UNHEALTHY else st.status,
    consecutive_successes := 0,
    consecutive_failures := st.consecutive_failures + 1,
    latency_ewma := st.latency_ewma }

/-- Modelled from the spec: a freshly registered instance starts UNKNOWN with
zero streaks and no latency sample (section 4.2, register). -/
def freshUnknown : HealthState :=
  { status := Status.UNKNOWN, consecutive_successes := 0,
    consecutive_failures := 0, latency_ewma := none }

/-- A run of consecutive probe successes with the given latency samples. -/
def apply_successes (samples : List ℚ) (st : HealthState) : HealthState :=
  match samples with
  | [] => st
  | s :: rest => apply_successes rest (probe_success st s)

/-- A run of `n` consecutive probe failures. -/
def apply_failures : Nat → HealthState → HealthState
  | 0, st => st
  | n + 1, st => apply_failures n (probe_failure st)

/-- A HEALTHY state right after a probe success (failure streak zero). -/
def mkHealthy (cs : Nat) (lat : Option ℚ) : HealthState :=
  { status := Status.HEALTHY, consecutive_successes := cs,
    consecutive_failures := 0, latency_ewma := lat }

lemma probe_success_of_healthy (st : HealthState) (s : ℚ)
    (h : st.status = Status.HEALTHY) :
    (probe_success st s).status = Status.HEALTHY := by
  simp [probe_success, h]

lemma apply_successes_of_healthy (samples : List ℚ) :
    ∀ st : HealthState, st.status = Status.HEALTHY →
      (apply_successes samples st).status = Status.HEALTHY := by
  induction samples with
  | nil =>
    intro st h
    exact h
  | cons s rest ih =>
    intro st h
    exact ih _ (probe_success_of_healthy st s h)

lemma probe_failure_of_unhealthy (st : HealthState)
    (h : st.status = Status.UNHEALTHY) :
    (probe_failure st).status = Status.UNHEALTHY := by
  simp [probe_failure, h]

lemma apply_failures_of_unhealthy (n : Nat) :
    ∀ st : HealthState, st.status = Status.UNHEALTHY →
      (apply_failures n st).status = Status.UNHEALTHY := by
  induction n with
  | zero =>
    intro st h
    exact h
  | succ n ih =>
    intro st h
    exact ih _ (probe_failure_of_unhealthy st h)

lemma apply_successes_from_unknown (samples : List ℚ) :
    ∀ st : HealthState, st.status = Status.UNKNOWN →
      st.consecutive_successes < SUCCESS_THRESHOLD →
      ((apply_successes samples st).status = Status.HEALTHY ↔
        SUCCESS_THRESHOLD ≤ st.consecutive_successes + samples.length) := by
  induction samples with
  | nil =>
    intro st h hcs
    rw [apply_successes, h]
    simp only [List.length_nil, Nat.add_zero]
    constructor
    · intro hcon
      exact absurd hcon (by simp)
    · intro hle
      omega
  | cons s rest ih =>
    intro st h hcs
    rw [apply_successes]
    by_cases h2 : SUCCESS_THRESHOLD ≤ st.consecutive_successes + 1
    · have hs : (probe_success st s).status = Status.HEALTHY := by
        simp [probe_success, h, h2]
      rw [apply_successes_of_healthy rest _ hs]
      simp only [List.length_cons]
      constructor
      · intro _
        omega
      · intro _
        trivial
    · have hs : (probe_success st s).status = Status.UNKNOWN := by
        simp [probe_success, h, h2]
      have hcs' : (probe_success st s).consecutive_successes =
          st.consecutive_successes + 1 := rfl
      rw [ih _ hs (by rw [hcs']; omega), hcs']
      simp only [List.length_cons]
      omega

lemma apply_failures_from_healthy (n : Nat) :
    ∀ st : HealthState, st.status = Status.HEALTHY →
      st.consecutive_failures < FAILURE_THRESHOLD →
      ((apply_failures n st).status = Status.UNHEALTHY ↔
        FAILURE_THRESHOLD ≤ st.consecutive_failures + n) := by
  induction n with
  | zero =>
    intro st h hcf
    rw [apply_failures, h]
    constructor
    · intro hcon
      exact absurd hcon (by simp)
    · intro hle
      omega
  | succ n ih =>
    intro st h hcf
    rw [apply_failures]
    by_cases h2 : FAILURE_THRESHOLD ≤ st.consecutive_failures + 1
    · have hs : (probe_failure st).status = Status.UNHEALTHY := by
        simp [probe_failure, h, h2]
      rw [apply_failures_of_unhealthy n _ hs]
      constructor
      · intro _
        omega
      · intro _
        trivial
    · have hs : (probe_failure st).status = Status.HEALTHY := by
        simp [probe_failure, h, h2]
      have hcf' : (probe_failure st).consecutive_failures =
          st.consecutive_failures + 1 := rfl
      rw [ih _ hs (by rw [hcf']; omega), hcf']
      omega

/-- C8: under the default thresholds, an instance starting fresh in UNKNOWN
becomes HEALTHY exactly when it has accumulated at least
`SUCCESS_THRESHOLD = 2` consecutive successes; a HEALTHY instance (failure
streak zero) becomes UNHEALTHY after a run of failures exactly when the run
reaches `FAILURE_THRESHOLD = 3`; a probe success resets
`consecutive_failures` to 0 and a probe failure resets
`consecutive_successes` to 0; and a single failure after one success leaves
a fresh instance in UNKNOWN. -/
theorem health_state_machine_hysteresis :
    ∀ (samples : List ℚ) (n cs : Nat) (lat : Option ℚ) (st : HealthState) (sample : ℚ),
      SUCCESS_THRESHOLD = 2 ∧ FAILURE_THRESHOLD = 3 ∧
      ((apply_successes samples freshUnknown).status = Status.HEALTHY ↔
        2 ≤ samples.length) ∧
      ((apply_failures n (mkHealthy cs lat)).status = Status.UNHEALTHY ↔ 3 ≤ n) ∧
      (probe_success st sample).consecutive_failures = 0 ∧
      (probe_failure st).consecutive_successes = 0 ∧
      (probe_failure (probe_success freshUnknown sample)).status = Status.UNKNOWN := by
  intro samples n cs lat st sample
  refine ⟨rfl, rfl, ?_, ?_, rfl, rfl, ?_⟩
  · have h := apply_successes_from_unknown samples freshUnknown rfl
      (by simp [freshUnknown, SUCCESS_THRESHOLD])
    simpa [freshUnknown, SUCCESS_THRESHOLD] using h
  · have h := apply_failures_from_healthy n (mkHealthy cs lat) rfl
      (by simp [mkHealthy, FAILURE_THRESHOLD])
    simpa [mkHealthy, FAILURE_THRESHOLD] using h
  · simp [probe_success, probe_failure, freshUnknown, SUCCESS_THRESHOLD, FAILURE_THRESHOLD]

/-! Embedding of `sort_dict` and `generate_idempotency_key`
(src/utilities/utils.py, lines 20-52). A Python JSON-like payload is the
inductive `Json`; a dict is its entry list in insertion order (Python dicts
have pairwise-distinct keys, captured by `wfJson`). -/

inductive Json where
  | null : Json
  | bool : Bool → Json
  | int : Int → Json
  | str : String → Json
  | arr : List Json → Json
  | obj : List (String × Json) → Json

/-- Comparison of dict entries by key, modelling Python `sorted(data)` over
the keys (code-point lexicographic order on strings). -/
def pairLE (a b : String × Json) : Prop := a.1 ≤ b.1

instance : DecidableRel pairLE := fun a b => inferInstanceAs (Decidable (a.1 ≤ b.1))

instance : IsTotal (String × Json) pairLE := ⟨fun a b => le_total a.1 b.1⟩

instance : IsTrans (String × Json) pairLE := ⟨fun _ _ _ h1 h2 => le_trans h1 h2⟩

/-- Strict key comparison, used to show a sorted nodup-key entry list is
determined by its entry multiset. -/
def pairLT (a b : String × Json) : Prop := a.1 < b.1

instance : IsAntisymm (String × Json) pairLT :=
  ⟨fun _ _ h1 h2 => absurd h2 (not_lt_of_lt h1)⟩

mutual
/-- Embedding of `sort_dict`: a non-dict value is returned as is (so dicts
nested inside lists are not reached); a dict becomes the dict over the same
keys, each value recursively sorted, keys in sorted order. Python builds
`{key: sort_dict(data[key]) for key in sorted(data)}`; since a dict's keys
are pairwise distinct, that equals stably sorting the entry list by key
after recursing into the values. -/
def sort_dict : Json → Json
  | .obj kvs => .obj (List.insertionSort pairLE (sortPairsValues kvs))
  | x => x
/-- `sort_dict` applied to each value of an entry list. -/
def sortPairsValues : List (String × Json) → List (String × Json)
  | [] => []
  | (k, v) :: rest => (k, sort_dict v) :: sortPairsValues rest
end

mutual
/-- Well-formedness of a payload as a Python value: every dict (at any
nesting level) has pairwise-distinct keys. -/
def wfJson : Json → Bool
  | .null => true
  | .bool _ => true
  | .int _ => true
  | .str _ => true
  | .arr xs => wfList xs
  | .obj kvs => decide ((kvs.map Prod.fst).Nodup) && wfPairs kvs
def wfList : List Json → Bool
  | [] => true
  | x :: xs => wfJson x && wfList xs
def wfPairs : List (String × Json) → Bool
  | [] => true
  | (_, v) :: rest => wfJson v && wfPairs rest
end

/-- JSON string escaping for the compact `msgspec.json` encoding (quote,
backslash and the common control characters; other characters are emitted
as is, which is all the payloads of interest need). -/
def jsonEscapeChar (c : Char) : List Char :=
  if c = '"' then ['\\', '"']
  else if c = '\\' then ['\\', '\\']
  else if c = '\n' then ['\\', 'n']
  else if c = '\t' then ['\\', 't']
  else if c = '\r' then ['\\', 'r']
  else [c]

def jsonQuote (s : String) : String :=
  String.mk ('"' :: ((s.toList.map jsonEscapeChar).flatten ++ ['"']))

mutual
/-- `MSGSPEC_ENCODER.encode`: compact JSON serialization (no whitespace),
emitting dict entries in their list order. -/
def serializeJson : Json → String
  | .null => "null"
  | .bool b => if b then "true" else "false"
  | .int n => toString n
  | .str s => jsonQuote s
  | .arr xs => "[" ++ serializeList xs ++ "]"
  | .obj kvs => "\x7b" ++ serializePairs kvs ++ "\x7d"
def serializeList : List Json → String
  | [] => ""
  | [x] => serializeJson x
  | x :: y :: rest => serializeJson x ++ "," ++ serializeList (y :: rest)
def serializePairs : List (String × Json) → String
  | [] => ""
  | [(k, v)] => jsonQuote k ++ ":" ++ serializeJson v
  | (k, v) :: p :: rest =>
    jsonQuote k ++ ":" ++ serializeJson v ++ "," ++ serializePairs (p :: rest)
end

/-- The `hashlib.sha256` round constants. -/
def sha256K : List Nat :=
  [1116352408, 1899447441, 3049323471, 3921009573, 961987163, 1508970993,
   2453635748, 2870763221, 3624381080, 310598401, 607225278, 1426881987,
   1925078388, 2162078206, 2614888103, 3248222580, 3835390401, 4022224774,
   264347078, 604807628, 770255983, 1249150122, 1555081692, 1996064986,
   2554220882, 2821834349, 2952996808, 3210313671, 3336571891, 3584528711,
   113926993, 338241895, 666307205, 773529912, 1294757372, 1396182291,
   1695183700, 1986661051, 2177026350, 2456956037, 2730485921, 2820302411,
   3259730800, 3345764771, 3516065817, 3600352804, 4094571909, 275423344,
   430227734, 506948616, 659060556, 883997877, 958139571, 1322822218,
   1537002063, 1747873779, 1955562222, 2024104815, 2227730452, 2361852424,
   2428436474, 2756734187, 3204031479, 3329325298]

/-- The SHA-256 initial hash state. -/
def sha256H0 : List Nat :=
  [1779033703, 3144134277, 1013904242, 2773480762,
   1359893119, 2600822924, 528734635, 1541459225]

/-- Addition of 32-bit words (machine integers as `Nat` modulo `2^32`). -/
def wadd (a b : Nat) : Nat := (a + b) % 4294967296

/-- Right rotation of a 32-bit word. -/
def rotr (n x : Nat) : Nat := (x >>> n) ||| ((x <<< (32 - n)) % 4294967296)

def smallSigma0 (x : Nat) : Nat := rotr 7 x ^^^ rotr 18 x ^^^ (x >>> 3)

def smallSigma1 (x : Nat) : Nat := rotr 17 x ^^^ rotr 19 x ^^^ (x >>> 10)

def bigSigma0 (x : Nat) : Nat := rotr 2 x ^^^ rotr 13 x ^^^ rotr 22 x

def bigSigma1 (x : Nat) : Nat := rotr 6 x ^^^ rotr 11 x ^^^ rotr 25 x

def chB (x y z : Nat) : Nat := (x &&& y) ^^^ ((x ^^^ 4294967295) &&& z)

def majB (x y z : Nat) : Nat := (x &&& y) ^^^ (x &&& z) ^^^ (y &&& z)

/-- SHA-256 padding: append `0x80`, zeros to 56 mod 64, then the bit length
as 8 big-endian bytes. -/
def sha256Pad (msg : List Nat) : List Nat :=
  let bitLen := 8 * msg.length
  msg ++ [128] ++ List.replicate ((119 - msg.length % 64) % 64) 0 ++
    [(bitLen >>> 56) % 256, (bitLen >>> 48) % 256, (bitLen >>> 40) % 256,
     (bitLen >>> 32) % 256, (bitLen >>> 24) % 256, (bitLen >>> 16) % 256,
     (bitLen >>> 8) % 256, bitLen % 256]

/-- Big-endian 4-byte groups to 32-bit words (the padded length is a
multiple of 4). -/
def bytesToWords : List Nat → List Nat
  | b1 :: b2 :: b3 :: b4 :: rest =>
    (((b1 * 256 + b2) * 256 + b3) * 256 + b4) :: bytesToWords rest
  | _ => []

/-- Split into 16-word blocks (the padded length is a multiple of 16 words). -/
def wordsToBlocks : List Nat → List (List Nat)
  | w0 :: w1 :: w2 :: w3 :: w4 :: w5 :: w6 :: w7 ::
      w8 :: w9 :: w10 :: w11 :: w12 :: w13 :: w14 :: w15 :: rest =>
    [w0, w1, w2, w3, w4, w5, w6, w7, w8, w9, w10, w11, w12, w13, w14, w15] ::
      wordsToBlocks rest
  | _ => []

/-- Extend the 16-word block to the 64-word message schedule (`n` words left
to append). -/
def extendSchedule : Nat → List Nat → List Nat
  | 0, ws => ws
  | n + 1, ws =>
    let i := ws.length
    extendSchedule n (ws ++
      [wadd (wadd (smallSigma1 (ws.getD (i - 2) 0)) (ws.getD (i - 7) 0))
        (wadd (smallSigma0 (ws.getD (i - 15) 0)) (ws.getD (i - 16) 0))])

/-- One round of the SHA-256 compression function on the 8-word state. -/
def sha256Round (state : List Nat) (ki wi : Nat) : List Nat :=
  match state with
  | [a, b, c, d, e, f, g, h] =>
    [wadd (wadd (wadd (wadd h (bigSigma1 e)) (wadd (chB e f g) ki)) wi)
        (wadd (bigSigma0 a) (majB a b c)),
      a, b, c,
      wadd d (wadd (wadd (wadd h (bigSigma1 e)) (wadd (chB e f g) ki)) wi),
      e, f, g]
  | s => s

/-- Compress one 16-word block into the running 8-word hash state. -/
def sha256Compress (h : List Nat) (block : List Nat) : List Nat :=
  List.zipWith wadd h
    ((List.zip sha256K (extendSchedule 48 block)).foldl
      (fun st kw => sha256Round st kw.1 kw.2) h)

def hexDigit (n : Nat) : Char := "0123456789abcdef".toList.getD n '0'

def byteToHex (b : Nat) : List Char := [hexDigit (b / 16), hexDigit (b % 16)]

/-- `hashlib.sha256(...).hexdigest()` over a byte list. -/
def sha256hex (msg : List Nat) : String :=
  String.mk
    ((((wordsToBlocks (bytesToWords (sha256Pad msg))).foldl sha256Compress sha256H0).map
      (fun w => [(w >>> 24) % 256, (w >>> 16) % 256, (w >>> 8) % 256, w % 256])).flatten.map
        byteToHex).flatten

/-- The serialized string as hashed bytes; the payloads at issue serialize to
ASCII, where code points coincide with the UTF-8 bytes Python hashes. -/
def strToBytes (s : String) : List Nat := s.toList.map Char.toNat

/-- The dict `generate_idempotency_key` serializes: `{"payload": payload}`
extended with `"user_id"` when `user_id` is truthy (Python `if user_id:` is
false for both `None` and the empty string). -/
def idempotency_data (payload : Json) (user_id : Option String) : Json :=
  match user_id with
  | some uid =>
    if uid = "" then Json.obj [("payload", payload)]
    else Json.obj [("payload", payload), ("user_id", Json.str uid)]
  | none => Json.obj [("payload", payload)]

/-- Embedding of `generate_idempotency_key`: the SHA-256 hex digest of the
compact serialization of the recursively key-sorted data dict. -/
def generate_idempotency_key (payload : Json) (user_id : Option String) : String :=
  sha256hex (strToBytes (serializeJson (sort_dict (idempotency_data payload user_id))))

/-- Two payloads are equal as maps regardless of key insertion order when one
is reachable from the other by permuting the entry list of a dict or
rewriting a dict value in place, at any dict nesting level reached through
dict values (dicts inside lists are not reached, matching `sort_dict`). -/
inductive KeyPerm : Json → Json → Prop where
  | refl : ∀ x, KeyPerm x x
  | permute : ∀ kvs1 kvs2 : List (String × Json),
      List.Perm kvs1 kvs2 → KeyPerm (.obj kvs1) (.obj kvs2)
  | congr_value : ∀ (pre post : List (String × Json)) (k : String) (v v' : Json),
      KeyPerm v v' →
      KeyPerm (.obj (pre ++ (k, v) :: post)) (.obj (pre ++ (k, v') :: post))
  | trans : ∀ a b c, KeyPerm a b → KeyPerm b c → KeyPerm a c

lemma sortPairsValues_eq_map (l : List (String × Json)) :
    sortPairsValues l = l.map (fun kv => (kv.1, sort_dict kv.2)) := by
  induction l with
  | nil => simp [sortPairsValues]
  | cons kv rest ih =>
    obtain ⟨k, v⟩ := kv
    simp [sortPairsValues, ih]

lemma sortPairsValues_keys (l : List (String × Json)) :
    (sortPairsValues l).map Prod.fst = l.map Prod.fst := by
  rw [sortPairsValues_eq_map, List.map_map]
  rfl

lemma wfPairs_iff (l : List (String × Json)) :
    wfPairs l = true ↔ ∀ kv ∈ l, wfJson kv.2 = true := by
  induction l with
  | nil => simp [wfPairs]
  | cons kv rest ih =>
    obtain ⟨k, v⟩ := kv
    simp [wfPairs, Bool.and_eq_true, ih]

lemma nodup_keys_of_wf_obj {kvs : List (String × Json)}
    (h : wfJson (.obj kvs) = true) : (kvs.map Prod.fst).Nodup := by
  rw [wfJson, Bool.and_eq_true, decide_eq_true_eq] at h
  exact h.1

lemma wfPairs_of_wf_obj {kvs : List (String × Json)}
    (h : wfJson (.obj kvs) = true) : wfPairs kvs = true := by
  rw [wfJson, Bool.and_eq_true] at h
  exact h.2

lemma wf_obj_intro {kvs : List (String × Json)} (h1 : (kvs.map Prod.fst).Nodup)
    (h2 : wfPairs kvs = true) : wfJson (.obj kvs) = true := by
  rw [wfJson, Bool.and_eq_true, decide_eq_true_eq]
  exact ⟨h1, h2⟩

lemma keyPerm_wf : ∀ {a b : Json}, KeyPerm a b → wfJson a = true → wfJson b = true := by
  intro a b h
  induction h with
  | refl x => exact id
  | permute kvs1 kvs2 hp =>
    intro hwf
    refine wf_obj_intro ?_ ?_
    · exact ((hp.map Prod.fst).nodup_iff).mp (nodup_keys_of_wf_obj hwf)
    · have hps := wfPairs_of_wf_obj hwf
      rw [wfPairs_iff] at hps
      rw [wfPairs_iff]
      intro kv hkv
      exact hps kv ((hp.mem_iff).mpr hkv)
  | congr_value pre post k v v' hkp ih =>
    intro hwf
    have hps := wfPairs_of_wf_obj hwf
    rw [wfPairs_iff] at hps
    have hwv : wfJson v = true := hps (k, v) (by simp)
    refine wf_obj_intro ?_ ?_
    · have hkeys : (pre ++ (k, v') :: post).map Prod.fst =
          (pre ++ (k, v) :: post).map Prod.fst := by
        simp
      rw [hkeys]
      exact nodup_keys_of_wf_obj hwf
    · rw [wfPairs_iff]
      intro kv hkv
      rcases List.mem_append.mp hkv with h1 | h1
      · exact hps kv (List.mem_append.mpr (Or.inl h1))
      · rcases List.mem_cons.mp h1 with h2 | h2
        · rw [h2]
          exact ih hwv
        · exact hps kv (List.mem_append.mpr (Or.inr (List.mem_cons.mpr (Or.inr h2))))
  | trans a b c h1 h2 ih1 ih2 =>
    intro hwf
    exact ih2 (ih1 hwf)

lemma sorted_strict {l : List (String × Json)} (hs : List.Sorted pairLE l)
    (hnd : (l.map Prod.fst).Nodup) : List.Sorted pairLT l := by
  have hne : l.Pairwise (fun a b : String × Json => a.1 ≠ b.1) := by
    rw [List.Nodup, List.pairwise_map] at hnd
    exact hnd
  exact (hs.and hne).imp fun h => lt_of_le_of_ne h.1 h.2

lemma insertionSort_eq_of_perm {l1 l2 : List (String × Json)}
    (hp : l1.Perm l2) (hnd : (l1.map Prod.fst).Nodup) :
    List.insertionSort pairLE l1 = List.insertionSort pairLE l2 := by
  have hp1 : (List.insertionSort pairLE l1).Perm l1 := List.perm_insertionSort pairLE l1
  have hp2 : (List.insertionSort pairLE l2).Perm l2 := List.perm_insertionSort pairLE l2
  have hnd1 : ((List.insertionSort pairLE l1).map Prod.fst).Nodup :=
    ((hp1.map Prod.fst).nodup_iff).mpr hnd
  have hnd2 : ((List.insertionSort pairLE l2).map Prod.fst).Nodup :=
    (((hp2.trans hp.symm).map Prod.fst).nodup_iff).mpr hnd
  exact List.eq_of_perm_of_sorted (hp1.trans (hp.trans hp2.symm))
    (sorted_strict (List.sorted_insertionSort pairLE l1) hnd1)
    (sorted_strict (List.sorted_insertionSort pairLE l2) hnd2)

lemma sort_dict_eq_of_keyPerm :
    ∀ {a b : Json}, KeyPerm a b → wfJson a = true → sort_dict a = sort_dict b := by
  intro a b h
  induction h with
  | refl x => exact fun _ => rfl
  | permute kvs1 kvs2 hp =>
    intro hwf
    have hperm : (sortPairsValues kvs1).Perm (sortPairsValues kvs2) := by
      rw [sortPairsValues_eq_map, sortPairsValues_eq_map]
      exact hp.map _
    have hndm : ((sortPairsValues kvs1).map Prod.fst).Nodup := by
      rw [sortPairsValues_keys]
      exact nodup_keys_of_wf_obj hwf
    simp only [sort_dict]
    rw [insertionSort_eq_of_perm hperm hndm]
  | congr_value pre post k v v' hkp ih =>
    intro hwf
    have hps := wfPairs_of_wf_obj hwf
    rw [wfPairs_iff] at hps
    have hv : sort_dict v = sort_dict v' := ih (hps (k, v) (by simp))
    simp only [sort_dict]
    rw [sortPairsValues_eq_map, sortPairsValues_eq_map]
    simp only [List.map_append, List.map_cons]
    rw [hv]
  | trans a b c h1 h2 ih1 ih2 =>
    intro hwf
    exact (ih1 hwf).trans (ih2 (keyPerm_wf h1 hwf))

lemma wf_idempotency_data (p : Json) (uid : Option String) (h : wfJson p = true) :
    wfJson (idempotency_data p uid) = true := by
  cases uid with
  | none =>
    refine wf_obj_intro (by simp) ?_
    simp [wfPairs, h]
  | some s =>
    by_cases hs : s = ""
    · simp only [idempotency_data, if_pos hs]
      refine wf_obj_intro (by simp) ?_
      simp [wfPairs, h]
    · simp only [idempotency_data, if_neg hs]
      refine wf_obj_intro (by simp) ?_
      simp [wfPairs, wfJson, h]

lemma keyPerm_idempotency_data (p1 p2 : Json) (uid : Option String) (h : KeyPerm p1 p2) :
    KeyPerm (idempotency_data p1 uid) (idempotency_data p2 uid) := by
  cases uid with
  | none => exact KeyPerm.congr_value [] [] "payload" p1 p2 h
  | some s =>
    by_cases hs : s = ""
    · simp only [idempotency_data, if_pos hs]
      exact KeyPerm.congr_value [] [] "payload" p1 p2 h
    · simp only [idempotency_data, if_neg hs]
      exact KeyPerm.congr_value [] [("user_id", Json.str s)] "payload" p1 p2 h

/-- C9: for any two well-formed payloads that are equal as maps regardless of
key insertion order (nested dicts reached through dict values only, not
through lists), `generate_idempotency_key` returns the same SHA-256 hex
digest for every optional user id, because `sort_dict` canonicalizes the
entry order: it keeps exactly the key-value pairs of its input with keys
sorted recursively at every dict nesting level. -/
theorem generate_idempotency_key_insertion_order_invariant :
    ∀ (p1 p2 : Json) (user_id : Option String), KeyPerm p1 p2 → wfJson p1 = true →
      generate_idempotency_key p1 user_id = generate_idempotency_key p2 user_id := by
  intro p1 p2 uid hkp hwf
  unfold generate_idempotency_key
  rw [sort_dict_eq_of_keyPerm (keyPerm_idempotency_data p1 p2 uid hkp)
    (wf_idempotency_data p1 uid hwf)]

theorem generate_idempotency_key_insertion_order_invariant_witness :
    generate_idempotency_key
        (Json.obj [("b", Json.int 1),
          ("a", Json.obj [("y", Json.int 2), ("x", Json.int 3)])]) none =
      generate_idempotency_key
        (Json.obj [("a", Json.obj [("x", Json.int 3), ("y", Json.int 2)]),
          ("b", Json.int 1)]) none := by
  refine generate_idempotency_key_insertion_order_invariant _ _ none ?_ (by decide)
  refine KeyPerm.trans _
    (Json.obj [("b", Json.int 1),
      ("a", Json.obj [("x", Json.int 3), ("y", Json.int 2)])]) _ ?_ ?_
  · exact KeyPerm.congr_value [("b", Json.int 1)] [] "a" _ _
      (KeyPerm.permute _ _ (List.Perm.swap _ _ _))
  · exact KeyPerm.permute _ _ (List.Perm.swap _ _ _)
